import Mathlib

/-!
Verification of the GROMACS MD Runner orchestration core.

Shallow embedding of the Python sources:
  - `mdp_utils.py`   : parameter-file reading/updating, step-count arithmetic
  - `gromacs_runner.py` : stage validation, input-structure resolution,
    progress-streaming loop, process termination, index-group detection.

Files are modelled as lists of lines; a line is a list of characters without
its trailing newline (the on-disk file is the newline-terminated join).
Python floats are modelled as exact rationals; `int(x)` truncates toward zero.
-/

namespace Gromacs

abbrev Line := List Char

/-- Python whitespace class (`\s` of `re`, and the default `str.strip` set). -/
def isPySpace (c : Char) : Bool :=
  c = ' ' || c = '\t' || c = '\n' || c = '\r' || c = '\x0b' || c = '\x0c'

/-- Python `str.strip()`: drop leading and trailing whitespace. -/
def pystrip (l : Line) : Line :=
  ((l.dropWhile isPySpace).reverse.dropWhile isPySpace).reverse

/-- Case-insensitive character comparison (`re.IGNORECASE`). -/
def lowerEq (a b : Char) : Bool := a.toLower == b.toLower

/-- Match `k` case-insensitively at the front of `l`; return the remainder. -/
def ciDropKey : Line → Line → Option Line
  | [], l => some l
  | _ :: _, [] => none
  | k :: ks, c :: cs => if lowerEq k c then ciDropKey ks cs else none

/-- Numeric value of a digit string (`int` applied to a run of digits). -/
def digitsVal (ds : Line) : ℕ := ds.foldl (fun n c => 10 * n + (c.toNat - 48)) 0

/-- Substring test, Python's `needle in hay`. -/
def containsSeq (needle hay : Line) : Bool :=
  hay.tails.any (fun t => needle.isPrefixOf t)

/-- A line that `read_mdp_parameter`/`update_mdp_parameter` skip:
blank after stripping, or a full-line `;`/`#` comment. -/
def skipLine (l : Line) : Bool :=
  (pystrip l).isEmpty || (pystrip l).head? == some ';' || (pystrip l).head? == some '#'

/-- Does the remainder of the line start (after optional whitespace) with a
`;` inline comment?  Used for the lazy group of the value-extraction regex. -/
def commentAhead (r : Line) : Bool :=
  (r.dropWhile isPySpace).head? == some ';'

/-- The lazy `(.+?)` group of `^\s*key\s*=\s*(.+?)(?:\s*;.*)?$`: consume
characters until the rest of the line is only an optional inline comment. -/
def takeVal : Line → Line
  | [] => []
  | c :: r => c :: (if commentAhead r then [] else takeVal r)

/-- Value extraction from the text `t` that follows the `=` sign, following
the regex `\s*(.+?)(?:\s*;.*)?$` (with the final `.strip()` applied). -/
def extractValue (t : Line) : Option Line :=
  if t.isEmpty then none
  else if t.all isPySpace then some []
  else some (pystrip (takeVal (t.dropWhile isPySpace)))

/-- The `\s*=` part shared by both parameter regexes: an `=` sign after
optional whitespace; returns the text after the `=`. -/
def eqHeadThen (r : Line) : Option Line :=
  match r.dropWhile isPySpace with
  | '=' :: t => some t
  | _ => none

/-- Model of the regex match of `read_mdp_parameter`
(pattern `^\s*name\s*=\s*(.+?)(?:\s*;.*)?$` with IGNORECASE),
returning the stripped captured value. -/
def matchKV (name l : Line) : Option Line :=
  match ciDropKey name (l.dropWhile isPySpace) with
  | none => none
  | some r =>
    match eqHeadThen r with
    | none => none
    | some t => extractValue t

/-- Model of `read_mdp_parameter` (mdp_utils.py): scan lines top to bottom, skip
blank/comment lines, return the first matching parameter value. -/
def read_mdp_parameter (lines : List Line) (name : Line) : Option Line :=
  match lines with
  | [] => none
  | l :: rest =>
    if skipLine l then read_mdp_parameter rest name
    else
      match matchKV name l with
      | some v => some v
      | none => read_mdp_parameter rest name

/-- Model of the line test of `update_mdp_parameter`
(regex `^\s*name\s*=` with IGNORECASE): does this line set the parameter? -/
def keyMatches (name l : Line) : Bool :=
  match ciDropKey name (l.dropWhile isPySpace) with
  | none => false
  | some r => (eqHeadThen r).isSome

/-- Python `line[:len(line) - len(line.lstrip())]`: the leading whitespace. -/
def lineIndent (l : Line) : Line := l.takeWhile isPySpace

/-- Model of the comment search `;.*$`: the inline comment from the first `;` on
(empty when the line holds no `;`). -/
def inlineComment (l : Line) : Line := l.dropWhile (fun c => !(c == ';'))

/-- The replacement test of `update_mdp_parameter`: a non-skipped line that
sets the parameter. -/
def updHit (name : Line) (l : Line) : Bool := !skipLine l && keyMatches name l

/-- The rewritten line of `update_mdp_parameter`:
`f"{indent}{parameter_name} = {parameter_value}{' ' + comment if comment else ''}"`. -/
def replacedLine (name value l : Line) : Line :=
  let com := inlineComment l
  lineIndent l ++ name ++ (" = ").toList ++ value ++
    (if com.isEmpty then [] else ' ' :: com)

/-- The per-line action of `update_mdp_parameter`'s loop: keep blank and
comment lines, rewrite lines that set the parameter, keep the rest. -/
def updMapFn (name value : Line) (l : Line) : Line :=
  if skipLine l then l
  else if keyMatches name l then replacedLine name value l
  else l

/-- Model of `update_mdp_parameter` (mdp_utils.py): rewrite every non-comment line
that sets the parameter; if none did, append a marker comment and a fresh
`name = value` line at the end of the file. -/
def update_mdp_parameter (lines : List Line) (name value : Line) : List Line :=
  let mapped := lines.map (updMapFn name value)
  if lines.any (updHit name) then mapped
  else
    mapped ++ [[], ("; Added by GROMACS MD Runner").toList,
      name ++ (" = ").toList ++ value]

/-- Python `int()` applied to a rational: truncation toward zero. -/
def pyInt (q : ℚ) : ℤ := if 0 ≤ q then ⌊q⌋ else -⌊-q⌋

/-- Model of `ns_to_nsteps` (mdp_utils.py): `int((ns * 1_000_000) / timestep_fs)`. -/
def ns_to_nsteps (ns timestep_fs : ℚ) : ℤ := pyInt (ns * 1000000 / timestep_fs)

/-- Sign prefix of a Python numeric literal; `true` means negative. -/
def parseSign : Line → Bool × Line
  | '-' :: r => (true, r)
  | '+' :: r => (false, r)
  | s => (false, s)

/-- Exponent suffix of a float literal (`e`/`E`, optional sign, digits);
`some 0` for the empty remainder, `none` when trailing garbage remains. -/
def parseExpSuffix (r : Line) : Option ℤ :=
  match r with
  | [] => some 0
  | c :: r2 =>
    if c = 'e' || c = 'E' then
      let (en, r3) := parseSign r2
      let ds := r3.takeWhile Char.isDigit
      let r4 := r3.dropWhile Char.isDigit
      if ds.isEmpty || !r4.isEmpty then none
      else some (if en then -(digitsVal ds : ℤ) else (digitsVal ds : ℤ))
    else none

/-- Python `float(s)` on decimal literals, as an exact rational;
`none` models the `ValueError`. -/
def parsePyFloat (s0 : Line) : Option ℚ :=
  let s1 := pystrip s0
  let (neg, s2) := parseSign s1
  let intDs := s2.takeWhile Char.isDigit
  let r2 := s2.dropWhile Char.isDigit
  let (fracDs, r4) :=
    match r2 with
    | '.' :: r3 => (r3.takeWhile Char.isDigit, r3.dropWhile Char.isDigit)
    | _ => (([] : Line), r2)
  if intDs.isEmpty && fracDs.isEmpty then none
  else
    match parseExpSuffix r4 with
    | none => none
    | some e =>
      let mag : ℚ :=
        ((digitsVal intDs : ℚ) + (digitsVal fracDs : ℚ) / (10 : ℚ) ^ fracDs.length)
          * (10 : ℚ) ^ e
      some (if neg then -mag else mag)

/-- Python `int(s)` on a string; `none` models the `ValueError`. -/
def parsePyInt (s0 : Line) : Option ℤ :=
  let s1 := pystrip s0
  let (neg, s2) := parseSign s1
  let ds := s2.takeWhile Char.isDigit
  let r := s2.dropWhile Char.isDigit
  if ds.isEmpty || !r.isEmpty then none
  else some (if neg then -(digitsVal ds : ℤ) else (digitsVal ds : ℤ))

/-- Timestep selection of `update_mdp_nsteps` (mdp_utils.py): read `dt`
(picoseconds), convert to femtoseconds, default to 2 fs when the parameter
is absent, empty, or unparsable. -/
def timestep_fs_of (lines : List Line) : ℚ :=
  match read_mdp_parameter lines ("dt").toList with
  | none => 2
  | some v =>
    if v.isEmpty then 2
    else
      match parsePyFloat v with
      | some dt_ps => dt_ps * 1000
      | none => 2

/-- The nsteps value computed by `update_mdp_nsteps` for a duration `ns`. -/
def update_mdp_nsteps_val (lines : List Line) (ns : ℚ) : ℤ :=
  ns_to_nsteps ns (timestep_fs_of lines)

/-- Model of `total_steps = int(nsteps_str) if nsteps_str else 50000`
(gromacs_runner.py, run_md); `none` models an `int()` parse failure. -/
def total_steps_of (lines : List Line) : Option ℤ :=
  match read_mdp_parameter lines ("nsteps").toList with
  | none => some 50000
  | some v => if v.isEmpty then some 50000 else parsePyInt v

/-! ## Streaming progress loop (gromacs_runner.py, run_md lines 483-541) -/

/-- Pattern 1 at one position: `Step\s+(\d+)` (case-insensitive). -/
def tryStepSpaceNum (cs : Line) : Option ℕ :=
  match ciDropKey ("step").toList cs with
  | none => none
  | some r =>
    if (r.takeWhile isPySpace).isEmpty then none
    else
      match (r.dropWhile isPySpace).takeWhile Char.isDigit with
      | [] => none
      | ds => some (digitsVal ds)

/-- Search for pattern 1 at every start position, leftmost wins. -/
def searchStepSpaceNum : Line → Option ℕ
  | [] => none
  | cs@(_ :: rest) =>
    match tryStepSpaceNum cs with
    | some n => some n
    | none => searchStepSpaceNum rest

/-- Pattern 2 at one position: `Step\s*=\s*(\d+)` (case-insensitive). -/
def tryStepEqNum (cs : Line) : Option ℕ :=
  match ciDropKey ("step").toList cs with
  | none => none
  | some r =>
    match r.dropWhile isPySpace with
    | '=' :: r2 =>
      match (r2.dropWhile isPySpace).takeWhile Char.isDigit with
      | [] => none
      | ds => some (digitsVal ds)
    | _ => none

/-- Search for pattern 2. -/
def searchStepEqNum : Line → Option ℕ
  | [] => none
  | cs@(_ :: rest) =>
    match tryStepEqNum cs with
    | some n => some n
    | none => searchStepEqNum rest

/-- Fractional value of the digits after the decimal point. -/
def fracVal (ds : Line) : ℚ := (digitsVal ds : ℚ) / (10 : ℚ) ^ ds.length

/-- Suffix `\s*%`: optional whitespace then a percent sign. -/
def percentAfter (r : Line) : Bool :=
  match r.dropWhile isPySpace with
  | '%' :: _ => true
  | _ => false

/-- Pattern 3 at one position: `(\d+(?:\.\d+)?)\s*%`. -/
def tryPct (cs : Line) : Option ℚ :=
  match cs with
  | [] => none
  | c :: _ =>
    if c.isDigit then
      let d1 := cs.takeWhile Char.isDigit
      let r1 := cs.dropWhile Char.isDigit
      match r1 with
      | '.' :: r2 =>
        if (match r2 with | d :: _ => d.isDigit | [] => false) then
          let d2 := r2.takeWhile Char.isDigit
          let r3 := r2.dropWhile Char.isDigit
          if percentAfter r3 then some ((digitsVal d1 : ℚ) + fracVal d2) else none
        else if percentAfter r1 then some (digitsVal d1) else none
      | _ => if percentAfter r1 then some (digitsVal d1) else none
    else none

/-- Search for pattern 3. -/
def searchPct : Line → Option ℚ
  | [] => none
  | cs@(_ :: rest) =>
    match tryPct cs with
    | some q => some q
    | none => searchPct rest

/-- The three-pattern progress extraction of the streaming loop, first
successful pattern wins; pattern 3 needs a literal `%` in the line and
converts the percentage into a step estimate `int((pct/100.0)*total)`. -/
def parseStep (total : ℤ) (l : Line) : Option ℤ :=
  match searchStepSpaceNum l with
  | some n => some (n : ℤ)
  | none =>
    match searchStepEqNum l with
    | some n => some (n : ℤ)
    | none =>
      if l.contains '%' then
        (searchPct l).map (fun pct => pyInt (pct / 100 * (total : ℚ)))
      else none

/-- One delivered progress callback: `progress_callback(step, total_steps)`
together with the wall-clock time at which it fired. -/
structure ProgressEvent where
  step : ℤ
  total : ℤ
  time : ℚ
  deriving DecidableEq

/-- The loop's mutable state: `last_progress_update` and `last_step`. -/
structure LoopState where
  last_progress_update : ℚ
  last_step : ℤ
  deriving DecidableEq

/-- Initially `last_progress_update = 0` and `last_step = 0`. -/
def initLoopState : LoopState := ⟨0, 0⟩

/-- The streaming loop over (line, wall-clock time) pairs: fire the progress
callback when a step was extracted, more than 0.5 s passed since the last
update, and the step differs from the last reported one. -/
def runLoop (total : ℤ) : LoopState → List (Line × ℚ) → List ProgressEvent
  | _, [] => []
  | st, (l, t) :: rest =>
    match parseStep total l with
    | none => runLoop total st rest
    | some s =>
      if 1/2 < t - st.last_progress_update ∧ s ≠ st.last_step then
        ⟨s, total, t⟩ :: runLoop total ⟨t, s⟩ rest
      else runLoop total st rest

/-- Progress pairs of a whole run: the loop's events followed by the forced
final `progress_callback(total_steps, total_steps)` on a zero exit code. -/
def run_md_progress (total : ℤ) (stream : List (Line × ℚ)) (returncode : ℤ) :
    List (ℤ × ℤ) :=
  (runLoop total initLoopState stream).map (fun e => (e.step, e.total)) ++
    (if returncode = 0 then [(total, total)] else [])

/-! ## Stage validation and input-structure resolution (gromacs_runner.py) -/

/-- Model of `validate_environment` (lines 50-103): stage-specific structure checks,
then the required-files check; errors are the raised exception messages. -/
def validate_environment (files : String → Bool) (stage : String) :
    Except String Unit :=
  let required :=
    if stage = "setup" then ["topol.top", "step3_input.gro"] else ["topol.top"]
  if stage = "equilibration" ∧ ¬ files "setup.gro" ∧ ¬ files "step3_input.gro" then
    .error "Missing input structure for equilibration. Run setup stage first or provide step3_input.gro"
  else if stage = "production" ∧ ¬ files "equil.gro" ∧ ¬ files "setup.gro"
      ∧ ¬ files "step3_input.gro" then
    .error "Missing input structure for production. Run setup or equilibration stage first, or provide step3_input.gro"
  else
    let missing := required.filter (fun f => !files f)
    if missing.isEmpty then .ok ()
    else .error ("Missing required files: " ++ String.intercalate ", " missing)

/-- Input-structure choice of the production stage (run_md lines 375-383):
equilibration output, then setup output, then the initial structure. -/
def production_input (files : String → Bool) : String :=
  if files "equil.gro" then "equil.gro"
  else if files "setup.gro" then "setup.gro"
  else "step3_input.gro"

/-- Filesystem/process side effects of the run_md prelude. -/
inductive FX where
  | spawnWhich (cmd : String)
  | writeFile (path : String)
  deriving DecidableEq

/-- The per-stage MDP candidate list (find_mdp_file / get_mdp_file). -/
def stage_mdp_options (stage : String) : List String :=
  if stage = "setup" then
    ["step4_0_minimization.mdp", "step4.0_minimization.mdp", "minim.mdp", "em.mdp"]
  else if stage = "equilibration" then
    ["step4.1_equilibration.mdp", "step4_1_equilibration.mdp",
      "step4_equilibration.mdp", "equil.mdp", "nvt.mdp"]
  else if stage = "production" then
    ["step5_production.mdp", "step5.0_production.mdp", "md.mdp", "prod.mdp"]
  else ["step5_production.mdp"]

/-- The filename `create_basic_mdp` writes for each stage. -/
def basic_mdp_name (stage : String) : String :=
  if stage = "setup" then "minim.mdp"
  else if stage = "equilibration" then "equil.mdp"
  else "md.mdp"

/-- Model of `find_mdp_file`: first existing candidate, else create a default
parameter file (a filesystem write). -/
def find_mdp_file (files : String → Bool) (stage : String) : String × List FX :=
  match (stage_mdp_options stage).find? (fun f => files f) with
  | some f => (f, [])
  | none => (basic_mdp_name stage, [FX.writeFile (basic_mdp_name stage)])

/-- The prelude of `run_md` (lines 347-357) with its side effects, in source
order: validate the environment, probe for the engine binary (a spawned
`which` process), resolve the MDP file (possibly writing a default one). -/
def run_md_prelude (files : String → Bool) (stage : String)
    (gmx : Option String) : Except String String × List FX :=
  match validate_environment files stage with
  | .error e => (.error e, [])
  | .ok _ =>
    match gmx with
    | none => (.error "GROMACS (gmx) not found in PATH. Please install GROMACS.",
        [FX.spawnWhich "gmx"])
    | some _ =>
      let (mdp, fx) := find_mdp_file files stage
      (.ok mdp, FX.spawnWhich "gmx" :: fx)

/-- The acceptable input-structure files of each stage. -/
def acceptable_inputs (stage : String) : List String :=
  if stage = "setup" then ["step3_input.gro"]
  else if stage = "equilibration" then ["setup.gro", "step3_input.gro"]
  else ["equil.gro", "setup.gro", "step3_input.gro"]

/-! ## Process termination (gromacs_runner.py, stop_md lines 588-646) -/

/-- The observable behaviour of the operating system toward one pid:
whether the process exists, whether we may signal it, and whether it dies
within the polling window after SIGTERM resp. after SIGKILL. -/
structure ProcWorld where
  alive : Bool
  canSignal : Bool
  diesOnTerm : Bool
  diesOnKill : Bool
  deriving DecidableEq

/-- Python truthiness of the pid argument (`if not pid`). -/
def pidFalsy : Option ℤ → Bool
  | none => true
  | some p => p == 0

/-- Model of `stop_md`: `False` for a falsy pid; `True` when the process is already
gone (`ProcessLookupError` from `os.kill(pid, 0)`); `False` on
`PermissionError`; otherwise graceful SIGTERM with polling, then SIGKILL
with a final liveness check. -/
def stop_md (pid : Option ℤ) (w : ProcWorld) : Bool :=
  if pidFalsy pid then false
  else if !w.alive then true
  else if !w.canSignal then false
  else if w.diesOnTerm then true
  else if w.diesOnKill then true
  else false

/-! ## Index-group auto-detection (gromacs_runner.py, lines 736-802) -/

/-- A bracketed section header: the stripped line starts with `[` and ends
with `]`; its name is the inner text, stripped and lower-cased. -/
def headerName (l : Line) : Option Line :=
  match pystrip l with
  | [] => none
  | c :: rest =>
    if c = '[' ∧ (c :: rest).getLast? = some ']' then
      some ((pystrip rest.dropLast).map Char.toLower)
    else none

def ligand_keywords : List Line :=
  [("unk").toList, ("lig").toList, ("mol").toList, ("ligand").toList,
    ("het").toList, ("resname").toList, ("drug").toList, ("comp").toList,
    ("inh").toList, ("sub").toList]

def ion_keywords : List Line :=
  [("pot").toList, ("cla").toList, ("na").toList, ("cl").toList,
    ("ion").toList, ("tip").toList, ("wat").toList, ("sol").toList]

/-- Receptor test: name contains `protein` but not `-h`. -/
def isReceptorName (n : Line) : Bool :=
  containsSeq ("protein").toList n && !containsSeq ("-h").toList n

/-- Ligand test: name contains a ligand keyword and no ion/water keyword. -/
def isLigandName (n : Line) : Bool :=
  ligand_keywords.any (fun k => containsSeq k n) &&
    !(ion_keywords.any (fun k => containsSeq k n))

/-- The scanning loop of `detect_index_groups`: number every header in
order (starting at 1), remember the first receptor and ligand hits. -/
def detectLoop : List Line → ℕ → Option ℕ → Option ℕ → Option ℕ × Option ℕ
  | [], _, r, g => (r, g)
  | l :: rest, num, r, g =>
    match headerName l with
    | none => detectLoop rest num r g
    | some n =>
      let num2 := num + 1
      let r2 := if isReceptorName n ∧ r = none then some num2 else r
      let g2 := if isLigandName n ∧ g = none then some num2 else g
      detectLoop rest num2 r2 g2

/-- Model of `detect_index_groups`: defaults (1, 13) when `index.ndx` is absent or a
role stays unmatched. -/
def detect_index_groups (ndx : Option (List Line)) : ℕ × ℕ :=
  match ndx with
  | none => (1, 13)
  | some lines =>
    let (r, g) := detectLoop lines 0 none none
    (r.getD 1, g.getD 13)

/-- The section headers of an index file, in order. -/
def headerNames (lines : List Line) : List Line := lines.filterMap headerName

/-- One-based position of the first list entry satisfying `p`. -/
def firstHeaderNum (p : Line → Bool) : List Line → Option ℕ
  | [] => none
  | h :: t => if p h then some 1 else (firstHeaderNum p t).map (· + 1)

/-- Specification-side restatement of the detection: the receptor is the
first matching header's one-based number (default 1), the ligand likewise
(default 13). -/
def detectSpec (ndx : Option (List Line)) : ℕ × ℕ :=
  match ndx with
  | none => (1, 13)
  | some lines =>
    (((firstHeaderNum isReceptorName (headerNames lines)).getD 1),
      ((firstHeaderNum isLigandName (headerNames lines)).getD 13))

/-! ## Resume-capable run variant (not among the provided sources) -/

/-- Modelled from the spec: both `app.py` and the retained app copy invoke
`run_md` with `total_steps=...` and `resume=...` keyword arguments, but the
`run_md` in the provided `gromacs_runner.py` accepts neither, so the
resume-capable runner variant those callers bind to is missing from the
sources.  Per spec section 4.3 step 4, its preprocessing phase is skipped
exactly when resuming and the previously produced binary run-description
(`.tpr`) file already exists. -/
def skip_preprocessing (resume tpr_exists : Bool) : Bool :=
  resume && tpr_exists

/-- Modelled from the spec: the compute command of the missing
resume-capable `run_md` variant (spec sections 4.3 step 5 and 6), naming
the output prefix, the thread count, the explicit total-step override, the
GPU placement flags when requested, and the checkpoint-resume flag when
resuming and a checkpoint file exists. -/
def build_mdrun_command (gmx outName : String) (threads : ℕ)
    (total_steps : ℤ) (use_gpu resume cpt_exists : Bool) : List String :=
  [gmx, "mdrun", "-deffnm", outName, "-nt", toString threads,
      "-nsteps", toString total_steps]
    ++ (if use_gpu then
          ["-nb", "gpu", "-pme", "gpu", "-update", "gpu", "-bonded", "gpu"]
        else [])
    ++ (if resume && cpt_exists then ["-cpi", outName ++ ".cpt"] else [])

/-! ## Auxiliary predicates used by the theorems -/

/-- Well-formed parameter key: nonempty, first character not whitespace and
not a comment starter. -/
def goodKey : Line → Bool
  | [] => false
  | c :: _ => !isPySpace c && !(c == ';') && !(c == '#')

/-- Well-formed parameter value: nonempty, no surrounding whitespace, and
free of `;` (which would start an inline comment). -/
def goodVal (v : Line) : Bool :=
  !v.isEmpty &&
    (match v with
      | [] => false
      | c :: _ => !isPySpace c) &&
    (match v.getLast? with
      | some c => !isPySpace c
      | none => false) &&
    !(v.any (fun c => c == ';'))

/-- Invariant of the streaming loop's emitted events: each event fires more
than 0.5 s after the state's last update time, with a step different from
the state's last reported step, carries the run's total, and the state then
advances to that event's time and step. -/
def eventsOK (total : ℤ) : LoopState → List ProgressEvent → Prop
  | _, [] => True
  | st, e :: es =>
    (1/2 < e.time - st.last_progress_update ∧ e.step ≠ st.last_step ∧
      e.total = total) ∧ eventsOK total ⟨e.time, e.step⟩ es

/-! ## Helper lemmas: the streaming loop -/

theorem runLoop_cons_none {total : ℤ} {st : LoopState} {l : Line} {t : ℚ}
    {rest : List (Line × ℚ)} (h : parseStep total l = none) :
    runLoop total st ((l, t) :: rest) = runLoop total st rest := by
  simp only [runLoop]
  rw [h]

theorem runLoop_cons_fire {total s : ℤ} {st : LoopState} {l : Line} {t : ℚ}
    {rest : List (Line × ℚ)} (h : parseStep total l = some s)
    (h2 : 1/2 < t - st.last_progress_update) (h3 : s ≠ st.last_step) :
    runLoop total st ((l, t) :: rest) =
      ⟨s, total, t⟩ :: runLoop total ⟨t, s⟩ rest := by
  simp only [runLoop]
  rw [h]
  simp only [if_pos (And.intro h2 h3)]

theorem runLoop_cons_nofire {total s : ℤ} {st : LoopState} {l : Line} {t : ℚ}
    {rest : List (Line × ℚ)} (h : parseStep total l = some s)
    (hc : ¬(1/2 < t - st.last_progress_update ∧ s ≠ st.last_step)) :
    runLoop total st ((l, t) :: rest) = runLoop total st rest := by
  simp only [runLoop]
  rw [h]
  simp only [if_neg hc]

theorem runLoop_eventsOK (total : ℤ) :
    ∀ (stream : List (Line × ℚ)) (st : LoopState),
      eventsOK total st (runLoop total st stream)
  | [], _ => trivial
  | (l, t) :: rest, st => by
    cases h : parseStep total l with
    | none =>
      rw [runLoop_cons_none h]
      exact runLoop_eventsOK total rest st
    | some s =>
      by_cases hc : 1/2 < t - st.last_progress_update ∧ s ≠ st.last_step
      · rw [runLoop_cons_fire h hc.1 hc.2]
        exact ⟨⟨hc.1, hc.2, rfl⟩, runLoop_eventsOK total rest ⟨t, s⟩⟩
      · rw [runLoop_cons_nofire h hc]
        exact runLoop_eventsOK total rest st

theorem eventsOK_chain {total : ℤ} :
    ∀ (es : List ProgressEvent) (st : LoopState), eventsOK total st es →
      List.Chain' (fun a b : ProgressEvent =>
        1/2 < b.time - a.time ∧ a.step ≠ b.step) es
  | [], _, _ => List.chain'_nil
  | [_], _, _ => List.chain'_singleton _
  | e :: f :: es, _, h => by
    rw [List.chain'_cons]
    exact ⟨⟨h.2.1.1, Ne.symm h.2.1.2.1⟩,
      eventsOK_chain (f :: es) ⟨e.time, e.step⟩ h.2⟩

theorem eventsOK_head {total : ℤ} {st : LoopState} {es : List ProgressEvent}
    (h : eventsOK total st es) (e : ProgressEvent) (he : es.head? = some e) :
    1/2 < e.time - st.last_progress_update ∧ e.step ≠ st.last_step := by
  cases es with
  | nil => simp at he
  | cons x xs =>
    simp only [List.head?_cons, Option.some.injEq] at he
    subst he
    exact ⟨h.1.1, h.1.2.1⟩

theorem eventsOK_mem_total {total : ℤ} :
    ∀ (es : List ProgressEvent) (st : LoopState), eventsOK total st es →
      ∀ e ∈ es, e.total = total
  | [], _, _ => by simp
  | x :: es, st, h => by
    intro e he
    rcases List.mem_cons.mp he with rfl | hm
    · exact h.1.2.2
    · exact eventsOK_mem_total es ⟨x.time, x.step⟩ h.2 e hm

/-! ## Claims about the streaming loop -/

/-- Claim C5: during one run's streaming loop a progress callback fires at
most once per 0.5 real-time seconds and only when the extracted step differs
from the last reported value; feeding the fresh parser two consecutive lines
reporting the same (nonzero) step yields exactly one callback for it. -/
theorem C5_progress_debounce_dedup :
    (∀ (total : ℤ) (stream : List (Line × ℚ)),
      List.Chain' (fun a b : ProgressEvent =>
        1/2 < b.time - a.time ∧ a.step ≠ b.step)
        (runLoop total initLoopState stream))
    ∧ (∀ (total : ℤ) (l1 l2 : Line) (t1 t2 : ℚ) (s : ℤ),
        parseStep total l1 = some s → parseStep total l2 = some s →
        s ≠ 0 → 1/2 < t1 →
        runLoop total initLoopState [(l1, t1), (l2, t2)] = [⟨s, total, t1⟩]) := by
  constructor
  · intro total stream
    exact eventsOK_chain _ _ (runLoop_eventsOK total stream initLoopState)
  · intro total l1 l2 t1 t2 s h1 h2 hs ht
    rw [runLoop_cons_fire h1 (by simpa [initLoopState] using ht)
      (by simpa [initLoopState] using hs)]
    rw [runLoop_cons_nofire h2 (fun hc => hc.2 rfl)]
    rfl

/-- Witness for C5 at a concrete duplicated-step stream. -/
theorem C5_progress_debounce_dedup_witness :
    runLoop 50000 initLoopState
      [(("Step 100").toList, 1), (("Step 100").toList, 2)] =
      [⟨100, 50000, 1⟩] :=
  C5_progress_debounce_dedup.2 50000 _ _ 1 2 100 (by decide) (by decide)
    (by decide) (by norm_num)

/-- Claim C9 counterexample: a parsed step value of 0 IS delivered to the
progress callback once a nonzero step has been reported before it. -/
theorem C9_zero_step_delivered_counterexample :
    runLoop 50000 initLoopState
      [(("Step 100").toList, 1), (("Step 0").toList, 2)] =
      [⟨100, 50000, 1⟩, ⟨0, 50000, 2⟩] := by
  have hp1 : parseStep 50000 (("Step 100").toList) = some 100 := by decide
  have hp2 : parseStep 50000 (("Step 0").toList) = some 0 := by decide
  rw [runLoop_cons_fire hp1 (by norm_num [initLoopState]) (by decide)]
  rw [runLoop_cons_fire hp2 (by norm_num) (by decide)]
  rfl

/-- Claim C9 (amended): the first progress callback of a run always carries
a nonzero step value, because `last_step` initializes to 0 and a callback
requires the new value to differ from it; a zero step can still be
delivered later, after a nonzero step was reported. -/
theorem C9_first_progress_nonzero (total : ℤ) (stream : List (Line × ℚ))
    (e : ProgressEvent)
    (h : (runLoop total initLoopState stream).head? = some e) :
    e.step ≠ 0 := by
  have hh := eventsOK_head (runLoop_eventsOK total stream initLoopState) e h
  simpa [initLoopState] using hh.2

/-- Witness for C9's amended theorem at a concrete stream. -/
theorem C9_first_progress_nonzero_witness :
    (⟨5, 50000, 1⟩ : ProgressEvent).step ≠ 0 :=
  C9_first_progress_nonzero 50000 [(("Step 5").toList, 1)] _ (by
    have hp : parseStep 50000 (("Step 5").toList) = some 5 := by decide
    rw [runLoop_cons_fire hp (by norm_num [initLoopState]) (by decide)]
    rfl)

/-- Claim C10: when the resolved parameter file contains no readable nsteps
value, the run uses 50000 as the total step count for all progress
reporting, including the forced final `(total, total)` callback on a zero
exit code. -/
theorem C10_default_total_steps (lines : List Line) (stream : List (Line × ℚ))
    (h : read_mdp_parameter lines ("nsteps").toList = none) :
    total_steps_of lines = some 50000
    ∧ (∀ p ∈ run_md_progress 50000 stream 0, p.2 = 50000)
    ∧ (run_md_progress 50000 stream 0).getLast? = some (50000, 50000) := by
  refine ⟨by unfold total_steps_of; rw [h], ?_, ?_⟩
  · intro p hp
    unfold run_md_progress at hp
    rcases List.mem_append.mp hp with hm | hm
    · rcases List.mem_map.mp hm with ⟨e, he, rfl⟩
      exact eventsOK_mem_total _ _ (runLoop_eventsOK 50000 stream initLoopState) e he
    · simp at hm
      rw [hm]
  · unfold run_md_progress
    rw [if_pos rfl, List.getLast?_concat]

/-- Witness for C10 at a parameter file that lacks nsteps. -/
theorem C10_default_total_steps_witness :
    total_steps_of [("dt = 0.002").toList] = some 50000 :=
  (C10_default_total_steps [("dt = 0.002").toList] [] (by decide)).1

/-! ## Claim about process termination -/

/-- Claim C2 counterexample: `stop_md` on a falsy pid (here `None`) returns
`False`, not `True` as the claim states. -/
theorem C2_stop_falsy_counterexample :
    stop_md none ⟨false, true, true, true⟩ = false := rfl

/-- Claim C2 (amended): `stop_md` returns `False` without raising when the
pid is falsy, and returns `True` without raising when a truthy pid's
process is already gone. -/
theorem C2_stop_amended :
    (∀ (p : ℤ) (w : ProcWorld), p ≠ 0 → w.alive = false →
      stop_md (some p) w = true)
    ∧ (∀ w : ProcWorld, stop_md none w = false ∧ stop_md (some 0) w = false) := by
  constructor
  · intro p w hp hw
    simp [stop_md, pidFalsy, hp, hw]
  · intro w
    exact ⟨rfl, rfl⟩

/-- Witness for C2's amended theorem at a concrete dead pid. -/
theorem C2_stop_amended_witness :
    stop_md (some 12345) ⟨false, true, true, true⟩ = true :=
  C2_stop_amended.1 12345 ⟨false, true, true, true⟩ (by decide) rfl

/-! ## Claims about stage resolution and validation -/

/-- Claim C6: production input-structure resolution prefers the
equilibration output, then the setup output, then the initial structure,
and validation fails when none of the three exist. -/
theorem C6_production_input_priority (files : String → Bool) :
    (files "equil.gro" = true → production_input files = "equil.gro")
    ∧ (files "equil.gro" = false → files "setup.gro" = true →
        production_input files = "setup.gro")
    ∧ (files "equil.gro" = false → files "setup.gro" = false →
        production_input files = "step3_input.gro")
    ∧ (files "equil.gro" = false → files "setup.gro" = false →
        files "step3_input.gro" = false →
        ∃ e, validate_environment files "production" = Except.error e) := by
  refine ⟨fun h => ?_, fun h1 h2 => ?_, fun h1 h2 => ?_, fun h1 h2 h3 => ?_⟩
  · simp [production_input, h]
  · simp [production_input, h1, h2]
  · simp [production_input, h1, h2]
  · exact ⟨_, by simp [validate_environment, h1, h2, h3]; rfl⟩

/-- Witness for C6 at a directory holding only the initial structure. -/
theorem C6_production_input_priority_witness :
    production_input (fun s => s == "step3_input.gro") = "step3_input.gro" :=
  (C6_production_input_priority _).2.2.1 (by decide) (by decide)

/-- Claim C7: for every stage, a working directory missing all of the
stage's acceptable input-structure files makes validation raise the
missing-input error, and the run prelude stops there: no process is
spawned and no file (in particular no default parameter file) is written. -/
theorem C7_missing_inputs_fail_fast (files : String → Bool) (stage : String)
    (gmx : Option String)
    (hs : stage = "setup" ∨ stage = "equilibration" ∨ stage = "production")
    (hmiss : ∀ f ∈ acceptable_inputs stage, files f = false) :
    ∃ e, validate_environment files stage = Except.error e ∧
      run_md_prelude files stage gmx = (Except.error e, []) := by
  rcases hs with rfl | rfl | rfl
  · have h3 := hmiss "step3_input.gro" (by simp [acceptable_inputs])
    cases ht : files "topol.top"
    · exact ⟨_, by simp [validate_environment, h3, ht]; rfl,
        by simp [run_md_prelude, validate_environment, h3, ht]⟩
    · exact ⟨_, by simp [validate_environment, h3, ht]; rfl,
        by simp [run_md_prelude, validate_environment, h3, ht]⟩
  · have h1 := hmiss "setup.gro" (by simp [acceptable_inputs])
    have h2 := hmiss "step3_input.gro" (by simp [acceptable_inputs])
    exact ⟨_, by simp [validate_environment, h1, h2]; rfl,
      by simp [run_md_prelude, validate_environment, h1, h2]⟩
  · have h1 := hmiss "equil.gro" (by simp [acceptable_inputs])
    have h2 := hmiss "setup.gro" (by simp [acceptable_inputs])
    have h3 := hmiss "step3_input.gro" (by simp [acceptable_inputs])
    exact ⟨_, by simp [validate_environment, h1, h2, h3]; rfl,
      by simp [run_md_prelude, validate_environment, h1, h2, h3]⟩

/-- Witness for C7 at an empty production directory. -/
theorem C7_missing_inputs_fail_fast_witness :
    ∃ e, validate_environment (fun _ => false) "production" = Except.error e ∧
      run_md_prelude (fun _ => false) "production" (some "gmx") =
        (Except.error e, []) :=
  C7_missing_inputs_fail_fast (fun _ => false) "production" (some "gmx")
    (Or.inr (Or.inr rfl)) (by intro f hf; rfl)

/-! ## Claim about the step-count arithmetic -/

/-- Claim C3: for positive duration and timestep the step computation is
the exact floor of `d * 1,000,000 / t` (truncation of a nonnegative
quotient), and the timestep defaults to 2 fs when the `dt` parameter is
absent or unparsable. -/
theorem C3_steps_floor :
    (∀ (d t : ℚ), 0 < d → 0 < t → ns_to_nsteps d t = ⌊d * 1000000 / t⌋)
    ∧ (∀ lines, read_mdp_parameter lines ("dt").toList = none →
        timestep_fs_of lines = 2)
    ∧ (∀ lines v, read_mdp_parameter lines ("dt").toList = some v →
        parsePyFloat v = none → timestep_fs_of lines = 2) := by
  refine ⟨fun d t hd ht => ?_, fun lines h => ?_, fun lines v h hp => ?_⟩
  · unfold ns_to_nsteps pyInt
    rw [if_pos (by positivity)]
  · unfold timestep_fs_of
    rw [h]
  · unfold timestep_fs_of
    rw [h]
    by_cases hv : v.isEmpty = true
    · simp [hv]
    · simp [hv, hp]

/-- Witness for C3 at the spec's example `d = 10 ns`, `t = 2 fs`. -/
theorem C3_steps_floor_witness :
    ns_to_nsteps 10 2 = ⌊(10 : ℚ) * 1000000 / 2⌋ ∧
      ⌊(10 : ℚ) * 1000000 / 2⌋ = 5000000 :=
  ⟨C3_steps_floor.1 10 2 (by norm_num) (by norm_num), by
    rw [show (10 : ℚ) * 1000000 / 2 = ((5000000 : ℤ) : ℚ) by norm_num,
      Int.floor_intCast]⟩

/-! ## Claim about the resume-capable run variant (spec-modelled) -/

/-- Claim C1 (spec-modelled): with `resume = true` the preprocessing phase
is skipped when the `.tpr` file already exists, and the compute command
names the output prefix, the thread count, the explicit total-step
override, the GPU flags when requested, and the checkpoint-resume flag
when a checkpoint file exists. -/
theorem C1_resume_run (gmx outName : String) (threads : ℕ) (total : ℤ)
    (use_gpu resume tpr cpt : Bool) (hres : resume = true) :
    (tpr = true → skip_preprocessing resume tpr = true)
    ∧ ["-deffnm", outName] <:+:
        build_mdrun_command gmx outName threads total use_gpu resume cpt
    ∧ ["-nt", toString threads] <:+:
        build_mdrun_command gmx outName threads total use_gpu resume cpt
    ∧ ["-nsteps", toString total] <:+:
        build_mdrun_command gmx outName threads total use_gpu resume cpt
    ∧ (use_gpu = true →
        "-nb" ∈ build_mdrun_command gmx outName threads total use_gpu resume cpt
        ∧ "-pme" ∈ build_mdrun_command gmx outName threads total use_gpu resume cpt
        ∧ "-update" ∈ build_mdrun_command gmx outName threads total use_gpu resume cpt
        ∧ "-bonded" ∈ build_mdrun_command gmx outName threads total use_gpu resume cpt
        ∧ "gpu" ∈ build_mdrun_command gmx outName threads total use_gpu resume cpt)
    ∧ (cpt = true → ["-cpi", outName ++ ".cpt"] <:+:
        build_mdrun_command gmx outName threads total use_gpu resume cpt) := by
  subst hres
  refine ⟨fun h => by rw [h]; rfl, ?_, ?_, ?_, fun h => ?_, fun h => ?_⟩
  · exact ⟨[gmx, "mdrun"],
      ["-nt", toString threads, "-nsteps", toString total]
        ++ (if use_gpu then
              ["-nb", "gpu", "-pme", "gpu", "-update", "gpu", "-bonded", "gpu"]
            else [])
        ++ (if true && cpt then ["-cpi", outName ++ ".cpt"] else []),
      by simp [build_mdrun_command]⟩
  · exact ⟨[gmx, "mdrun", "-deffnm", outName],
      ["-nsteps", toString total]
        ++ (if use_gpu then
              ["-nb", "gpu", "-pme", "gpu", "-update", "gpu", "-bonded", "gpu"]
            else [])
        ++ (if true && cpt then ["-cpi", outName ++ ".cpt"] else []),
      by simp [build_mdrun_command]⟩
  · exact ⟨[gmx, "mdrun", "-deffnm", outName, "-nt", toString threads],
      (if use_gpu then
          ["-nb", "gpu", "-pme", "gpu", "-update", "gpu", "-bonded", "gpu"]
        else [])
        ++ (if true && cpt then ["-cpi", outName ++ ".cpt"] else []),
      by simp [build_mdrun_command]⟩
  · subst h
    refine ⟨?_, ?_, ?_, ?_, ?_⟩ <;> simp [build_mdrun_command]
  · subst h
    exact ⟨[gmx, "mdrun", "-deffnm", outName, "-nt", toString threads,
        "-nsteps", toString total]
        ++ (if use_gpu then
              ["-nb", "gpu", "-pme", "gpu", "-update", "gpu", "-bonded", "gpu"]
            else []),
      [], by simp [build_mdrun_command]⟩

/-- Witness for C1 at a concrete resumed GPU run. -/
theorem C1_resume_run_witness :
    skip_preprocessing true true = true ∧
      ["-cpi", "md" ++ ".cpt"] <:+:
        build_mdrun_command "gmx" "md" 4 500000 false true true :=
  ⟨(C1_resume_run "gmx" "md" 4 500000 false true true true rfl).1 rfl,
    (C1_resume_run "gmx" "md" 4 500000 false true true true rfl).2.2.2.2.2 rfl⟩

/-! ## Claim about index-group detection -/

theorem detectLoop_fst :
    ∀ (lines : List Line) (num : ℕ) (r g : Option ℕ),
      (detectLoop lines num r g).1 =
        (r <|> (firstHeaderNum isReceptorName (headerNames lines)).map (· + num))
  | [], num, r, g => by
    cases r <;> simp [detectLoop, headerNames, firstHeaderNum]
  | l :: rest, num, r, g => by
    cases hh : headerName l with
    | none =>
      have hn : headerNames (l :: rest) = headerNames rest := by
        simp [headerNames, List.filterMap_cons, hh]
      simp only [detectLoop, hh, hn]
      exact detectLoop_fst rest num r g
    | some n =>
      have hn : headerNames (l :: rest) = n :: headerNames rest := by
        simp [headerNames, List.filterMap_cons, hh]
      simp only [detectLoop, hh, hn]
      rw [detectLoop_fst rest (num + 1)]
      cases r with
      | some x => simp [firstHeaderNum]
      | none =>
        cases hpn : isReceptorName n with
        | true =>
          rw [if_pos ⟨rfl, rfl⟩]
          have hfh : firstHeaderNum isReceptorName (n :: headerNames rest) = some 1 := by
            simp [firstHeaderNum, hpn]
          rw [hfh]
          simp only [Option.some_orElse, Option.none_orElse, Option.map_some',
            Option.some.injEq]
          omega
        | false =>
          rw [if_neg (fun hc => by simp at hc)]
          have hfh : firstHeaderNum isReceptorName (n :: headerNames rest) =
              (firstHeaderNum isReceptorName (headerNames rest)).map (· + 1) := by
            simp [firstHeaderNum, hpn]
          rw [hfh]
          simp only [Option.none_orElse, Option.map_map]
          cases firstHeaderNum isReceptorName (headerNames rest) with
          | none => rfl
          | some x =>
            simp only [Option.map_some', Function.comp_apply, Option.some.injEq]
            omega

theorem detectLoop_snd :
    ∀ (lines : List Line) (num : ℕ) (r g : Option ℕ),
      (detectLoop lines num r g).2 =
        (g <|> (firstHeaderNum isLigandName (headerNames lines)).map (· + num))
  | [], num, r, g => by
    cases g <;> simp [detectLoop, headerNames, firstHeaderNum]
  | l :: rest, num, r, g => by
    cases hh : headerName l with
    | none =>
      have hn : headerNames (l :: rest) = headerNames rest := by
        simp [headerNames, List.filterMap_cons, hh]
      simp only [detectLoop, hh, hn]
      exact detectLoop_snd rest num r g
    | some n =>
      have hn : headerNames (l :: rest) = n :: headerNames rest := by
        simp [headerNames, List.filterMap_cons, hh]
      simp only [detectLoop, hh, hn]
      rw [detectLoop_snd rest (num + 1)]
      cases g with
      | some x => simp [firstHeaderNum]
      | none =>
        cases hpn : isLigandName n with
        | true =>
          rw [if_pos ⟨rfl, rfl⟩]
          have hfh : firstHeaderNum isLigandName (n :: headerNames rest) = some 1 := by
            simp [firstHeaderNum, hpn]
          rw [hfh]
          simp only [Option.some_orElse, Option.none_orElse, Option.map_some',
            Option.some.injEq]
          omega
        | false =>
          rw [if_neg (fun hc => by simp at hc)]
          have hfh : firstHeaderNum isLigandName (n :: headerNames rest) =
              (firstHeaderNum isLigandName (headerNames rest)).map (· + 1) := by
            simp [firstHeaderNum, hpn]
          rw [hfh]
          simp only [Option.none_orElse, Option.map_map]
          cases firstHeaderNum isLigandName (headerNames rest) with
          | none => rfl
          | some x =>
            simp only [Option.map_some', Function.comp_apply, Option.some.injEq]
            omega

/-- Claim C8: group auto-detection numbers bracketed section headers from 1
in order; the receptor is the first header containing `protein` but not
`-h`, the ligand the first containing a ligand keyword and no ion/water
keyword; unmatched roles default to receptor 1 and ligand 13; an index file
with sections `Protein` then `Protein_LIG` yields receptor 1, ligand 2. -/
theorem C8_index_group_detection :
    (∀ ndx, detect_index_groups ndx = detectSpec ndx)
    ∧ detect_index_groups (some
        [("[ Protein ]").toList, ("1 2 3 4").toList,
          ("[ Protein_LIG ]").toList, ("5 6 7").toList]) = (1, 2) := by
  constructor
  · intro ndx
    cases ndx with
    | none => rfl
    | some lines =>
      have h1 := detectLoop_fst lines 0 none none
      have h2 := detectLoop_snd lines 0 none none
      simp only [Option.none_orElse] at h1 h2
      show ((detectLoop lines 0 none none).1.getD 1,
          (detectLoop lines 0 none none).2.getD 13) =
        ((firstHeaderNum isReceptorName (headerNames lines)).getD 1,
          (firstHeaderNum isLigandName (headerNames lines)).getD 13)
      rw [h1, h2]
      cases firstHeaderNum isReceptorName (headerNames lines) <;>
        cases firstHeaderNum isLigandName (headerNames lines) <;> simp
  · decide

/-! ## Helper lemmas: list scanning -/

theorem dropWhile_append_all {p : Char → Bool} :
    ∀ {a : Line} (b : Line), (∀ c ∈ a, p c = true) →
      (a ++ b).dropWhile p = b.dropWhile p
  | [], _, _ => rfl
  | c :: a, b, h => by
    have hc : p c = true := h c (List.mem_cons_self c a)
    simp only [List.cons_append, List.dropWhile_cons, hc, if_true]
    exact dropWhile_append_all b (fun x hx => h x (List.mem_cons_of_mem c hx))

theorem dropWhile_cons_neg {p : Char → Bool} {c : Char} {l : Line}
    (h : p c = false) : (c :: l).dropWhile p = c :: l := by
  simp [List.dropWhile_cons, h]

theorem dropWhile_head_not {q : Line → Bool} :
    ∀ {l : List Line} {b : Line} {bs : List Line},
      l.dropWhile q = b :: bs → q b = false
  | [], _, _, h => by simp at h
  | x :: xs, b, bs, h => by
    by_cases hx : q x = true
    · rw [List.dropWhile_cons, if_pos hx] at h
      exact dropWhile_head_not h
    · rw [List.dropWhile_cons, if_neg hx] at h
      rw [← (List.cons.injEq ..).mp h |>.1]
      exact Bool.not_eq_true _ ▸ hx

theorem dropWhileChar_head_not {q : Char → Bool} :
    ∀ {l : Line} {b : Char} {bs : Line},
      l.dropWhile q = b :: bs → q b = false
  | [], _, _, h => by simp at h
  | x :: xs, b, bs, h => by
    by_cases hx : q x = true
    · rw [List.dropWhile_cons, if_pos hx] at h
      exact dropWhileChar_head_not h
    · rw [List.dropWhile_cons, if_neg hx] at h
      rw [← (List.cons.injEq ..).mp h |>.1]
      exact Bool.not_eq_true _ ▸ hx

theorem dropWhile_append_left {p : Char → Bool} :
    ∀ {a : Line} (b : Line), a.dropWhile p ≠ [] →
      (a ++ b).dropWhile p = a.dropWhile p ++ b
  | [], _, h => absurd rfl h
  | c :: a, b, h => by
    by_cases hc : p c = true
    · rw [List.dropWhile_cons, if_pos hc] at h ⊢
      rw [List.cons_append, List.dropWhile_cons, if_pos hc]
      exact dropWhile_append_left b h
    · rw [List.dropWhile_cons, if_neg hc]
      rw [List.cons_append, List.dropWhile_cons, if_neg hc]

theorem getLast?_dropWhile {p : Char → Bool} :
    ∀ {l : Line}, l.dropWhile p ≠ [] →
      (l.dropWhile p).getLast? = l.getLast?
  | [], h => absurd rfl h
  | c :: l, h => by
    by_cases hc : p c = true
    · rw [List.dropWhile_cons, if_pos hc] at h ⊢
      rw [getLast?_dropWhile h]
      cases hl : l with
      | nil => rw [hl] at h; exact absurd rfl h
      | cons x xs => rw [List.getLast?_cons_cons]
    · rw [List.dropWhile_cons, if_neg hc]

theorem dropWhile_ne_nil_of_mem {p : Char → Bool} {l : Line} {x : Char}
    (hx : x ∈ l) (hpx : p x = false) : l.dropWhile p ≠ [] := by
  intro hnil
  have := List.dropWhile_eq_nil_iff.mp hnil x hx
  rw [hpx] at this
  exact absurd this (by simp)

theorem head_mem_of_dropWhile {p : Char → Bool} :
    ∀ {l : Line} {b : Char} {bs : Line}, l.dropWhile p = b :: bs → b ∈ l
  | [], _, _, h => by simp at h
  | x :: xs, b, bs, h => by
    by_cases hx : p x = true
    · rw [List.dropWhile_cons, if_pos hx] at h
      exact List.mem_cons_of_mem x (head_mem_of_dropWhile h)
    · rw [List.dropWhile_cons, if_neg hx] at h
      rw [← (List.cons.injEq ..).mp h |>.1]
      exact List.mem_cons_self x xs

/-! ## Helper lemmas: key/value well-formedness -/

theorem goodKey_spec {k : Line} (h : goodKey k = true) :
    ∃ c cs, k = c :: cs ∧ isPySpace c = false ∧ (c == ';') = false ∧
      (c == '#') = false := by
  cases k with
  | nil => simp [goodKey] at h
  | cons c cs =>
    refine ⟨c, cs, rfl, ?_, ?_, ?_⟩ <;>
      · have h2 : (!isPySpace c && !(c == ';') && !(c == '#')) = true := h
        simp only [Bool.and_eq_true, Bool.not_eq_true'] at h2
        first
          | exact h2.1.1
          | exact h2.1.2
          | exact h2.2

theorem goodVal_ne {v : Line} (h : goodVal v = true) : v ≠ [] := by
  cases v with
  | nil => exact absurd h (by decide)
  | cons a as => simp

theorem goodVal_parts {v : Line} (h : goodVal v = true) :
    (∀ c, v.head? = some c → isPySpace c = false)
    ∧ (∀ c, v.getLast? = some c → isPySpace c = false)
    ∧ (∀ c ∈ v, (c == ';') = false) := by
  cases v with
  | nil => simp [goodVal] at h
  | cons a as =>
    have h2 : (!(a :: as).isEmpty && !isPySpace a &&
        (match (a :: as).getLast? with
          | some c => !isPySpace c
          | none => false) &&
        !((a :: as).any (fun c => c == ';'))) = true := h
    simp only [Bool.and_eq_true, Bool.not_eq_true'] at h2
    refine ⟨?_, ?_, ?_⟩
    · intro c hc
      simp only [List.head?_cons, Option.some.injEq] at hc
      rw [← hc]
      exact h2.1.1.2
    · intro c hc
      have h3 := h2.1.2
      rw [hc] at h3
      simpa using h3
    · intro c hc
      have h4 := h2.2
      rw [List.any_eq_false] at h4
      simpa using h4 c hc

/-! ## Helper lemmas: stripping and matching the rewritten line -/

theorem pystrip_head {l : Line} {c : Char}
    (h : (l.dropWhile isPySpace).head? = some c) (hc : isPySpace c = false) :
    (pystrip l).head? = some c := by
  unfold pystrip
  cases hm : l.dropWhile isPySpace with
  | nil => rw [hm] at h; simp at h
  | cons a m =>
    rw [hm] at h
    simp only [List.head?_cons, Option.some.injEq] at h
    subst h
    have hrev_ne : ((a :: m).reverse.dropWhile isPySpace) ≠ [] :=
      dropWhile_ne_nil_of_mem
        (List.mem_reverse.mpr (List.mem_cons_self a m)) hc
    rw [List.head?_reverse, getLast?_dropWhile hrev_ne,
      List.getLast?_reverse]
    rfl

theorem pystrip_eq_self {v : Line}
    (hh : ∀ c, v.head? = some c → isPySpace c = false)
    (hl : ∀ c, v.getLast? = some c → isPySpace c = false) :
    pystrip v = v := by
  cases v with
  | nil => rfl
  | cons a as =>
    unfold pystrip
    rw [dropWhile_cons_neg (hh a rfl)]
    cases hr : (a :: as).reverse with
    | nil => simp at hr
    | cons b bs =>
      have hb : (a :: as).getLast? = some b := by
        rw [← List.head?_reverse, hr]
        rfl
      rw [dropWhile_cons_neg (hl b hb)]
      have hrr := congrArg List.reverse hr
      rw [List.reverse_reverse] at hrr
      exact hrr.symm

theorem ciDropKey_self_append : ∀ (k r : Line), ciDropKey k (k ++ r) = some r
  | [], r => rfl
  | c :: k, r => by
    rw [List.cons_append]
    show (if lowerEq c c then ciDropKey k (k ++ r) else none) = some r
    rw [if_pos (by simp [lowerEq]), ciDropKey_self_append k r]

theorem takeVal_eq :
    ∀ (v s : Line), (∀ c ∈ v, (c == ';') = false) →
      (∀ c, v.getLast? = some c → isPySpace c = false) →
      (s = [] ∨ commentAhead s = true) → v ≠ [] → takeVal (v ++ s) = v
  | [], _, _, _, _, hne => absurd rfl hne
  | [c], s, _, _, hs, _ => by
    show takeVal (c :: s) = [c]
    rcases hs with rfl | hs
    · rfl
    · unfold takeVal
      rw [hs]
      rfl
  | c :: c2 :: v2, s, hsemi, hlast, hs, _ => by
    have hlast2 : ∀ d, (c2 :: v2).getLast? = some d → isPySpace d = false :=
      fun d hd => hlast d (by rw [List.getLast?_cons_cons]; exact hd)
    have hsemi2 : ∀ d ∈ c2 :: v2, (d == ';') = false :=
      fun d hd => hsemi d (List.mem_cons_of_mem c hd)
    have hca : commentAhead ((c2 :: v2) ++ s) = false := by
      obtain ⟨d, hd⟩ : ∃ d, (c2 :: v2).getLast? = some d := by
        cases hg : (c2 :: v2).getLast? with
        | none => simp [List.getLast?_eq_none_iff] at hg
        | some d => exact ⟨d, rfl⟩
      have hdws : isPySpace d = false := hlast2 d hd
      have hdm : d ∈ c2 :: v2 := by
        obtain ⟨hne2, heq⟩ :=
          List.mem_getLast?_eq_getLast (Option.mem_def.mpr hd)
        rw [heq]
        exact List.getLast_mem hne2
      have hne2 : (c2 :: v2).dropWhile isPySpace ≠ [] :=
        dropWhile_ne_nil_of_mem hdm hdws
      cases hdrop : (c2 :: v2).dropWhile isPySpace with
      | nil => exact absurd hdrop hne2
      | cons a0 as0 =>
        have ha0 : a0 ∈ c2 :: v2 := head_mem_of_dropWhile hdrop
        unfold commentAhead
        rw [dropWhile_append_left s hne2, hdrop]
        simp only [List.cons_append, List.head?_cons]
        exact hsemi2 a0 ha0
    show takeVal (c :: ((c2 :: v2) ++ s)) = c :: (c2 :: v2)
    unfold takeVal
    rw [hca]
    simp only [Bool.false_eq_true, if_false]
    exact congrArg (c :: ·)
      (takeVal_eq (c2 :: v2) s hsemi2 hlast2 hs (by simp))

theorem matchKV_built (name v indent s : Line) (hk : goodKey name = true)
    (hv : goodVal v = true) (hind : ∀ c ∈ indent, isPySpace c = true)
    (hs : s = [] ∨ commentAhead s = true) :
    matchKV name (indent ++ name ++ (" = ").toList ++ v ++ s) = some v := by
  obtain ⟨nc, nt, hn, hncws, hnsemi, hnhash⟩ := goodKey_spec hk
  obtain ⟨hvh, hvl, hvsemi⟩ := goodVal_parts hv
  obtain ⟨v0, vt, hveq⟩ : ∃ v0 vt, v = v0 :: vt := by
    cases v with
    | nil => exact absurd rfl (goodVal_ne hv)
    | cons a b => exact ⟨a, b, rfl⟩
  subst hn
  subst hveq
  have hv0 : isPySpace v0 = false := hvh v0 rfl
  have hdw : ((indent ++ (nc :: nt) ++ (" = ").toList ++ (v0 :: vt) ++ s).dropWhile
      isPySpace) = nc :: (nt ++ ((" = ").toList ++ (v0 :: (vt ++ s)))) := by
    simp only [List.append_assoc, List.cons_append]
    rw [dropWhile_append_all _ hind, dropWhile_cons_neg hncws]
  have hcd : ciDropKey (nc :: nt)
      (nc :: (nt ++ ((" = ").toList ++ (v0 :: (vt ++ s))))) =
      some ((" = ").toList ++ (v0 :: (vt ++ s))) := by
    rw [← List.cons_append]
    exact ciDropKey_self_append (nc :: nt) _
  have heq : eqHeadThen ((" = ").toList ++ (v0 :: (vt ++ s))) =
      some (' ' :: (v0 :: (vt ++ s))) := by
    show eqHeadThen (' ' :: '=' :: ' ' :: (v0 :: (vt ++ s))) = _
    unfold eqHeadThen
    rw [List.dropWhile_cons, if_pos (by decide), dropWhile_cons_neg (by decide)]
    rfl
  have hdw2 : (' ' :: (v0 :: (vt ++ s))).dropWhile isPySpace =
      v0 :: (vt ++ s) := by
    rw [List.dropWhile_cons, if_pos (by decide), dropWhile_cons_neg hv0]
  have htv : takeVal (v0 :: (vt ++ s)) = v0 :: vt := by
    rw [← List.cons_append]
    exact takeVal_eq (v0 :: vt) s hvsemi hvl hs (by simp)
  have hext : extractValue (' ' :: (v0 :: (vt ++ s))) = some (v0 :: vt) := by
    unfold extractValue
    rw [if_neg (by simp), if_neg (by simp [hv0]), hdw2, htv,
      pystrip_eq_self hvh hvl]
  unfold matchKV
  rw [hdw, hcd]
  show (match eqHeadThen ((" = ").toList ++ (v0 :: (vt ++ s))) with
    | none => none
    | some t => extractValue t) = some (v0 :: vt)
  rw [heq]
  exact hext

theorem skipLine_built (name v indent s : Line) (hk : goodKey name = true)
    (hind : ∀ c ∈ indent, isPySpace c = true) :
    skipLine (indent ++ name ++ (" = ").toList ++ v ++ s) = false := by
  obtain ⟨nc, nt, hn, hncws, hnsemi, hnhash⟩ := goodKey_spec hk
  subst hn
  have hdwh : ((indent ++ (nc :: nt) ++ (" = ").toList ++ v ++ s).dropWhile
      isPySpace).head? = some nc := by
    simp only [List.append_assoc, List.cons_append]
    rw [dropWhile_append_all _ hind, dropWhile_cons_neg hncws]
    rfl
  have hph := pystrip_head hdwh hncws
  unfold skipLine
  cases hps : pystrip (indent ++ (nc :: nt) ++ (" = ").toList ++ v ++ s) with
  | nil => rw [hps] at hph; simp at hph
  | cons x xs =>
    rw [hps] at hph
    simp only [List.head?_cons, Option.some.injEq] at hph
    have hx : x = nc := hph
    subst hx
    have hn1 : ¬ x = ';' := by simpa using hnsemi
    have hn2 : ¬ x = '#' := by simpa using hnhash
    simp [hn1, hn2]

theorem keyMatches_of_matchKV {name l v : Line}
    (h : matchKV name l = some v) : keyMatches name l = true := by
  unfold matchKV at h
  unfold keyMatches
  cases hc : ciDropKey name (l.dropWhile isPySpace) with
  | none =>
    rw [hc] at h
    exact Option.noConfusion h
  | some r =>
    rw [hc] at h
    have h2 : (match eqHeadThen r with
      | none => none
      | some t => extractValue t) = some v := h
    show (eqHeadThen r).isSome = true
    cases he : eqHeadThen r with
    | none =>
      rw [he] at h2
      exact Option.noConfusion h2
    | some t => rfl

theorem matchKV_none_of_not_key {name l : Line}
    (h : keyMatches name l = false) : matchKV name l = none := by
  cases hm : matchKV name l with
  | none => rfl
  | some v => rw [keyMatches_of_matchKV hm] at h; exact absurd h (by simp)

theorem read_cons_skip {l : Line} {rest : List Line} {name : Line}
    (h : skipLine l = true) :
    read_mdp_parameter (l :: rest) name = read_mdp_parameter rest name := by
  show (if skipLine l = true then read_mdp_parameter rest name
    else match matchKV name l with
      | some v => some v
      | none => read_mdp_parameter rest name) = read_mdp_parameter rest name
  rw [if_pos h]

theorem read_cons_found {l : Line} {rest : List Line} {name v : Line}
    (h1 : skipLine l = false) (h2 : matchKV name l = some v) :
    read_mdp_parameter (l :: rest) name = some v := by
  show (if skipLine l = true then read_mdp_parameter rest name
    else match matchKV name l with
      | some w => some w
      | none => read_mdp_parameter rest name) = some v
  rw [if_neg (by simp [h1]), h2]

theorem read_cons_nomatch {l : Line} {rest : List Line} {name : Line}
    (h1 : skipLine l = false) (h2 : matchKV name l = none) :
    read_mdp_parameter (l :: rest) name = read_mdp_parameter rest name := by
  show (if skipLine l = true then read_mdp_parameter rest name
    else match matchKV name l with
      | some w => some w
      | none => read_mdp_parameter rest name) = read_mdp_parameter rest name
  rw [if_neg (by simp [h1]), h2]

theorem read_append_nomatch :
    ∀ {ls : List Line} (rest : List Line) (name : Line),
      (∀ l ∈ ls, skipLine l = true ∨ matchKV name l = none) →
      read_mdp_parameter (ls ++ rest) name = read_mdp_parameter rest name
  | [], _, _, _ => rfl
  | l :: ls, rest, name, h => by
    rw [List.cons_append]
    by_cases hsk : skipLine l = true
    · rw [read_cons_skip hsk]
      exact read_append_nomatch rest name
        (fun x hx => h x (List.mem_cons_of_mem l hx))
    · have h1 : skipLine l = false := by
        cases hb : skipLine l with
        | false => rfl
        | true => exact absurd hb hsk
      have h2 : matchKV name l = none := by
        rcases h l (List.mem_cons_self l ls) with hm | hm
        · exact absurd hm hsk
        · exact hm
      rw [read_cons_nomatch h1 h2]
      exact read_append_nomatch rest name
        (fun x hx => h x (List.mem_cons_of_mem l hx))

/-! ## Helper lemmas: the structure of an update -/

theorem updHit_false_cases {name l : Line} (h : updHit name l = false) :
    skipLine l = true ∨ keyMatches name l = false := by
  unfold updHit at h
  cases hs : skipLine l with
  | true => exact Or.inl rfl
  | false =>
    rw [hs] at h
    right
    simpa using h

theorem updHit_true_cases {name l : Line} (h : updHit name l = true) :
    skipLine l = false ∧ keyMatches name l = true := by
  unfold updHit at h
  cases hs : skipLine l with
  | true => rw [hs] at h; simp at h
  | false =>
    rw [hs] at h
    exact ⟨rfl, by simpa using h⟩

theorem updMapFn_id {name v l : Line} (h : updHit name l = false) :
    updMapFn name v l = l := by
  unfold updMapFn
  rcases updHit_false_cases h with hs | hk
  · rw [if_pos hs]
  · by_cases hsl : skipLine l = true
    · rw [if_pos hsl]
    · rw [if_neg hsl, if_neg (by simp [hk])]

theorem updMapFn_hit {name v l : Line} (h : updHit name l = true) :
    updMapFn name v l = replacedLine name v l := by
  obtain ⟨hs, hk⟩ := updHit_true_cases h
  unfold updMapFn
  rw [if_neg (by simp [hs]), if_pos hk]

theorem update_map_eq_self {name v : Line} :
    ∀ {lines : List Line}, (∀ l ∈ lines, updHit name l = false) →
      lines.map (updMapFn name v) = lines
  | [], _ => rfl
  | a :: as, h => by
    rw [List.map_cons, updMapFn_id (h a (List.mem_cons_self a as)),
      update_map_eq_self (fun l hl => h l (List.mem_cons_of_mem a hl))]

theorem update_eq_of_hit {lines : List Line} {name v : Line}
    (h : lines.any (updHit name) = true) :
    update_mdp_parameter lines name v = lines.map (updMapFn name v) := by
  show (if lines.any (updHit name) = true then lines.map (updMapFn name v)
    else lines.map (updMapFn name v) ++ [[], ("; Added by GROMACS MD Runner").toList,
      name ++ (" = ").toList ++ v]) = _
  rw [if_pos h]

theorem update_eq_of_nohit {lines : List Line} {name v : Line}
    (h : lines.any (updHit name) = false) :
    update_mdp_parameter lines name v = lines.map (updMapFn name v) ++
      [[], ("; Added by GROMACS MD Runner").toList,
        name ++ (" = ").toList ++ v] := by
  show (if lines.any (updHit name) = true then lines.map (updMapFn name v)
    else lines.map (updMapFn name v) ++ [[], ("; Added by GROMACS MD Runner").toList,
      name ++ (" = ").toList ++ v]) = _
  rw [if_neg (by simp [h])]

theorem any_false_all {name : Line} {lines : List Line}
    (h : lines.any (updHit name) = false) :
    ∀ l ∈ lines, updHit name l = false := by
  intro l hl
  have hn := List.any_eq_false.mp h l hl
  cases hb : updHit name l with
  | false => rfl
  | true => exact absurd hb hn

theorem update_hit_decomp {lines : List Line} {name v : Line}
    (h : lines.any (updHit name) = true) :
    ∃ tw b bs, lines = tw ++ b :: bs
      ∧ (∀ l ∈ tw, updHit name l = false)
      ∧ updHit name b = true
      ∧ update_mdp_parameter lines name v =
          tw ++ replacedLine name v b :: bs.map (updMapFn name v) := by
  cases hdw : lines.dropWhile (fun l => !updHit name l) with
  | nil =>
    exfalso
    obtain ⟨x, hx, hpx⟩ := List.any_eq_true.mp h
    have hall := List.dropWhile_eq_nil_iff.mp hdw x hx
    rw [hpx] at hall
    exact absurd hall (by simp)
  | cons b bs =>
    have htw : ∀ l ∈ lines.takeWhile (fun l => !updHit name l),
        updHit name l = false := by
      intro l hl
      have := List.mem_takeWhile_imp hl
      simpa using this
    have hb : updHit name b = true := by
      have := dropWhile_head_not hdw
      simpa using this
    have hsp : lines = lines.takeWhile (fun l => !updHit name l) ++ b :: bs := by
      rw [← hdw, List.takeWhile_append_dropWhile]
    refine ⟨lines.takeWhile (fun l => !updHit name l), b, bs, hsp, htw, hb, ?_⟩
    rw [update_eq_of_hit h]
    conv_lhs => rw [hsp]
    rw [List.map_append, List.map_cons, updMapFn_hit hb,
      update_map_eq_self htw]

/-! ## Claims about the parameter-file round trip -/

/-- Claim C4 counterexample: updating `nsteps` to the value `5 ; x` (a value
containing `;`) and reading it back returns `5`, not the written value, so
the round trip does not hold for every value V. -/
theorem C4_roundtrip_counterexample :
    read_mdp_parameter
      (update_mdp_parameter [("nsteps = 100").toList]
        (("nsteps").toList) (("5 ; x").toList))
      (("nsteps").toList) = some (("5").toList)
    ∧ (("5").toList : Line) ≠ ("5 ; x").toList := by decide

/-- Claim C4 (amended): for every parameter file, every well-formed key
(nonempty, starting with a character that is not whitespace, `;` or `#`)
and every well-formed value (nonempty, no surrounding whitespace, no `;`),
updating then reading returns exactly the written value, and every line
that does not set the key keeps its text and position; new content (the
explanatory comment and the fresh line of the append path) appears only
after all original lines. -/
theorem C4_update_read_roundtrip (lines : List Line) (name v : Line)
    (hk : goodKey name = true) (hv : goodVal v = true) :
    read_mdp_parameter (update_mdp_parameter lines name v) name = some v
    ∧ (∀ (i : ℕ) (l0 : Line), lines[i]? = some l0 → updHit name l0 = false →
        (update_mdp_parameter lines name v)[i]? = some l0) := by
  have hside : ∀ (ls : List Line), (∀ l ∈ ls, updHit name l = false) →
      ∀ l ∈ ls, skipLine l = true ∨ matchKV name l = none := by
    intro ls hall l hl
    rcases updHit_false_cases (hall l hl) with hs | hkm
    · exact Or.inl hs
    · exact Or.inr (matchKV_none_of_not_key hkm)
  constructor
  · cases hany : lines.any (updHit name) with
    | false =>
      rw [update_eq_of_nohit hany, update_map_eq_self (any_false_all hany)]
      rw [read_append_nomatch _ name (hside lines (any_false_all hany))]
      rw [read_cons_skip (by decide), read_cons_skip (by decide)]
      have hm := matchKV_built name v [] [] hk hv (by simp) (Or.inl rfl)
      have hsk := skipLine_built name v [] [] hk (by simp)
      have hm2 : matchKV name (name ++ (" = ").toList ++ v) = some v := by
        simpa using hm
      have hsk2 : skipLine (name ++ (" = ").toList ++ v) = false := by
        simpa using hsk
      exact read_cons_found hsk2 hm2
    | true =>
      obtain ⟨tw, b, bs, hsp, htw, hb, hupd⟩ := update_hit_decomp hany
      rw [hupd, read_append_nomatch _ name (hside tw htw)]
      have hind : ∀ c ∈ lineIndent b, isPySpace c = true :=
        fun c hc => List.mem_takeWhile_imp hc
      have hsfx : (if (inlineComment b).isEmpty then ([] : Line)
          else ' ' :: inlineComment b) = [] ∨
          commentAhead (if (inlineComment b).isEmpty then ([] : Line)
            else ' ' :: inlineComment b) = true := by
        cases hic : inlineComment b with
        | nil => left; simp
        | cons c0 cs0 =>
          right
          have hc0 : c0 = ';' := by simpa using dropWhileChar_head_not hic
          subst hc0
          show commentAhead (if (';' :: cs0 : Line).isEmpty then ([] : Line)
            else ' ' :: ';' :: cs0) = true
          rw [if_neg (by simp)]
          unfold commentAhead
          rw [List.dropWhile_cons, if_pos (by decide),
            dropWhile_cons_neg (by decide)]
          rfl
      have hmk : matchKV name (replacedLine name v b) = some v := by
        show matchKV name (lineIndent b ++ name ++ (" = ").toList ++ v ++
          (if (inlineComment b).isEmpty then [] else ' ' :: inlineComment b)) =
          some v
        exact matchKV_built name v (lineIndent b) _ hk hv hind hsfx
      have hskr : skipLine (replacedLine name v b) = false := by
        show skipLine (lineIndent b ++ name ++ (" = ").toList ++ v ++
          (if (inlineComment b).isEmpty then [] else ' ' :: inlineComment b)) =
          false
        exact skipLine_built name v (lineIndent b) _ hk hind
      exact read_cons_found hskr hmk
  · intro i l0 hi hhit
    have hfl : updMapFn name v l0 = l0 := updMapFn_id hhit
    have hmget : (lines.map (updMapFn name v))[i]? = some l0 := by
      rw [List.getElem?_map, hi]
      simp [hfl]
    cases hany : lines.any (updHit name) with
    | true => rw [update_eq_of_hit hany]; exact hmget
    | false =>
      have hlt : i < lines.length := by
        by_contra hge
        rw [List.getElem?_eq_none (Nat.le_of_not_lt hge)] at hi
        exact Option.noConfusion hi
      rw [update_eq_of_nohit hany,
        List.getElem?_append_left (by simpa using hlt)]
      exact hmget

/-- Witness for C4's amended theorem at a concrete file, key and value. -/
theorem C4_update_read_roundtrip_witness :
    read_mdp_parameter
      (update_mdp_parameter
        [("; run control").toList, ("nsteps = 100 ; note").toList]
        (("nsteps").toList) (("250").toList))
      (("nsteps").toList) = some (("250").toList) :=
  (C4_update_read_roundtrip
    [("; run control").toList, ("nsteps = 100 ; note").toList]
    (("nsteps").toList) (("250").toList) (by decide) (by decide)).1

end Gromacs
